import Mathlib

/-
Verification of the caep configuration library (src/caep/schema.py and
src/caep/config.py) against its natural-language specification.

The embedding translates the Python source into Lean:

* Python values that can appear as argparse/pydantic defaults and resolved
  configuration values are modelled by `Caep.Value` (None, bool, int, str).
  Floats ("number" fields) are not modelled: no verified claim involves a
  float-typed field, and floating point is outside the embedding.
* Python exceptions are modelled by `Caep.PyErr`; fallible code returns
  `Except PyErr _`.
* `re.split(rf"(?<!\\){split}", value, maxsplit)` and
  `re.sub(r"(?<!\\)\\", "", v)` from `escape_split` are modelled by direct
  character-list scans that track the previous character of the original
  string, exactly as the regex lookbehind does.  Delimiters are modelled as
  single characters: every delimiter the source ever uses (DEFAULT_SPLIT ","
  and DEFAULT_KV_SPLIT ":", or a per-field "split"/"kv_split" character)
  is a single character, and a multi-character or regex-special delimiter
  would change the meaning of the interpolated regex itself.
-/

namespace Caep

/-- Python values reachable in caep's default-resolution pipeline:
`None`, `bool`, `int` and `str`.  (Floats are deliberately not modelled.) -/
inductive Value where
  | vnone
  | vbool (b : Bool)
  | vint (n : Int)
  | vstr (s : String)
deriving DecidableEq, Repr

/-- Python exceptions raised by the modelled code paths. -/
inductive PyErr where
  | fieldError (msg : String)
  | valueError (msg : String)
  | notSupported (msg : String)
  | keyError (msg : String)
deriving DecidableEq, Repr

/-- Cons a character onto the first part of a split result
(the "no split here" step of the scan). -/
def consHead (c : Char) : List (List Char) → List (List Char)
  | [] => [[c]]
  | p :: ps => (c :: p) :: ps

/-- Model of `re.split(rf"(?<!\\){d}", value, maxsplit)` scanning `value`
left to right.  `prev` is the character before the current position in the
original string (the lookbehind), `rem` the remaining allowed splits
(`none` = unlimited, matching Python `maxsplit=0`). -/
def pySplitEscAux (d : Char) (rem : Option Nat) (prev : Option Char) : List Char → List (List Char)
  | [] => [[]]
  | c :: rest =>
    if c = d ∧ prev ≠ some '\\' ∧ rem ≠ some 0 then
      [] :: pySplitEscAux d (rem.map (fun k => k - 1)) (some c) rest
    else
      consHead c (pySplitEscAux d rem (some c) rest)

/-- Model of `re.sub(r"(?<!\\)\\", "", v)`: drop every backslash whose
preceding character in the original string is not a backslash.  `prev`
tracks the original previous character (matches are length 1, so scanning
resumes right after each removed backslash). -/
def pySubEscAux (prev : Option Char) : List Char → List Char
  | [] => []
  | c :: rest =>
    if c = '\\' ∧ prev ≠ some '\\' then pySubEscAux (some c) rest
    else c :: pySubEscAux (some c) rest

/-- `escape_split` from src/caep/schema.py (lines 54-65): split on every
occurrence of the delimiter not preceded by a backslash, then remove the
escaping backslashes from each part.  `maxsplit = 0` means unlimited,
as in Python's `re.split`. -/
def escape_split (value : List Char) (split : Char) (maxsplit : Nat) : List (List Char) :=
  (pySplitEscAux split (if maxsplit = 0 then none else some maxsplit) none value).map
    (pySubEscAux none)

/-- Number of delimiter occurrences in `value` that are not immediately
preceded by a backslash (the positions `escape_split` separates on). -/
def countUnescaped (d : Char) (prev : Option Char) : List Char → Nat
  | [] => 0
  | c :: rest =>
    (if c = d ∧ prev ≠ some '\\' then 1 else 0) + countUnescaped d (some c) rest

theorem pySplitEscAux_ne_nil (d : Char) (rem : Option Nat) (prev : Option Char)
    (v : List Char) : pySplitEscAux d rem prev v ≠ [] := by
  cases v with
  | nil => simp [pySplitEscAux]
  | cons c rest =>
    simp only [pySplitEscAux]
    split
    · simp
    · cases h : pySplitEscAux d rem (some c) rest <;> simp [consHead]

theorem consHead_length (c : Char) (ps : List (List Char)) :
    (consHead c ps).length = max 1 ps.length := by
  cases ps with
  | nil => simp [consHead]
  | cons p ps =>
    simp only [consHead, List.length_cons]
    omega

/-- With unlimited splits, the number of parts is one more than the number
of unescaped delimiter occurrences. -/
theorem pySplitEscAux_length (d : Char) (prev : Option Char) (v : List Char) :
    (pySplitEscAux d none prev v).length = countUnescaped d prev v + 1 := by
  induction v generalizing prev with
  | nil => simp [pySplitEscAux, countUnescaped]
  | cons c rest ih =>
    simp only [pySplitEscAux, countUnescaped]
    by_cases h : c = d ∧ prev ≠ some '\\'
    · rw [if_pos ⟨h.1, h.2, by simp⟩, if_pos h]
      simp [ih]
      omega
    · rw [if_neg (fun hc => h ⟨hc.1, hc.2.1⟩), if_neg h, consHead_length, ih (some c)]
      omega

/-- An element is clean for delimiter `d` when it contains neither `d` nor
the escape character: exactly the strings on which splitting and
unescaping act as identity. -/
def cleanElem (d : Char) (e : List Char) : Prop := ∀ c ∈ e, c ≠ d ∧ c ≠ '\\'

instance (d : Char) (e : List Char) : Decidable (cleanElem d e) := by
  unfold cleanElem; infer_instance

/-- Joining a sequence of elements with a delimiter character
(the inverse operation the spec's round-trip property refers to). -/
def joinWith (d : Char) : List (List Char) → List Char
  | [] => []
  | [e] => e
  | e :: es => e ++ d :: joinWith d es

theorem pySubEscAux_clean (d : Char) (e : List Char) (he : cleanElem d e) :
    ∀ prev, pySubEscAux prev e = e := by
  induction e with
  | nil => intro prev; rfl
  | cons c rest ih =>
    intro prev
    have hc := he c (by simp)
    have hrest : cleanElem d rest := fun x hx => he x (by simp [hx])
    simp only [pySubEscAux]
    rw [if_neg (fun h => hc.2 h.1), ih hrest (some c)]

theorem pySplitEscAux_clean (d : Char) (e : List Char) (he : cleanElem d e) :
    ∀ prev, prev ≠ some '\\' → pySplitEscAux d none prev e = [e] := by
  induction e with
  | nil => intro prev _; rfl
  | cons c rest ih =>
    intro prev _
    have hc := he c (by simp)
    have hrest : cleanElem d rest := fun x hx => he x (by simp [hx])
    simp only [pySplitEscAux]
    rw [if_neg (fun h => hc.1 h.1)]
    rw [ih hrest (some c) (by simp [hc.2]), consHead]

theorem pySplitEscAux_clean_delim (d : Char) (e : List Char) (he : cleanElem d e)
    (rest : List Char) : ∀ prev, prev ≠ some '\\' →
    pySplitEscAux d none prev (e ++ d :: rest) =
      e :: pySplitEscAux d none (some d) rest := by
  induction e with
  | nil =>
    intro prev hprev
    simp only [List.nil_append, pySplitEscAux]
    have hcond : True ∧ prev ≠ some '\\' ∧ (none : Option Nat) ≠ some 0 :=
      ⟨trivial, hprev, by simp⟩
    rw [if_pos hcond]
    simp
  | cons c e' ih =>
    intro prev _
    have hc := he c (by simp)
    have he' : cleanElem d e' := fun x hx => he x (by simp [hx])
    simp only [List.cons_append, pySplitEscAux, List.append_eq]
    rw [if_neg (fun h => hc.1 h.1)]
    rw [ih he' (some c) (by simp [hc.2]), consHead]

theorem escape_split_joinWith_aux (d : Char) (hd : d ≠ '\\') :
    ∀ (es : List (List Char)), es ≠ [] → (∀ e ∈ es, cleanElem d e) →
    ∀ prev, prev ≠ some '\\' →
      (pySplitEscAux d none prev (joinWith d es)).map (pySubEscAux none) = es := by
  intro es
  induction es with
  | nil => intro h; exact absurd rfl h
  | cons e es' ih =>
    intro _ hclean prev hprev
    have he : cleanElem d e := hclean e (by simp)
    cases es' with
    | nil =>
      rw [show joinWith d [e] = e from rfl, pySplitEscAux_clean d e he prev hprev]
      simp [pySubEscAux_clean d e he]
    | cons e2 es'' =>
      rw [show joinWith d (e :: e2 :: es'') = e ++ d :: joinWith d (e2 :: es'') from rfl]
      rw [pySplitEscAux_clean_delim d e he _ prev hprev]
      have ih2 := ih (by simp) (fun x hx => hclean x (by simp [hx]))
        (some d) (by simp [hd])
      simp only [List.map_cons, ih2, pySubEscAux_clean d e he]

/-- Appends a character to the last part of a split result
(what splitting `v ++ [c]` does when `c` cannot split). -/
def appendToLast (c : Char) : List (List Char) → List (List Char)
  | [] => [[c]]
  | [p] => [p ++ [c]]
  | p :: ps => p :: appendToLast c ps

theorem pySplitEscAux_append_char (d c : Char) (hc : c ≠ d) (v : List Char) :
    ∀ prev, pySplitEscAux d none prev (v ++ [c]) =
      appendToLast c (pySplitEscAux d none prev v) := by
  induction v with
  | nil =>
    intro prev
    simp only [List.nil_append, pySplitEscAux]
    rw [if_neg (fun h => hc h.1)]
    rfl
  | cons x xs ih =>
    intro prev
    simp only [List.cons_append, pySplitEscAux, List.append_eq]
    by_cases h : x = d ∧ prev ≠ some '\\' ∧ (none : Option Nat) ≠ some 0
    · rw [if_pos h, if_pos h]
      simp only [Option.map_none']
      rw [ih (some x)]
      rcases hS : pySplitEscAux d none (some x) xs with _ | ⟨p, ps⟩
      · exact absurd hS (pySplitEscAux_ne_nil d none (some x) xs)
      · rfl
    · rw [if_neg h, if_neg h]
      rw [ih (some x)]
      rcases hS : pySplitEscAux d none (some x) xs with _ | ⟨p, ps⟩
      · exact absurd hS (pySplitEscAux_ne_nil d none (some x) xs)
      · cases ps with
        | nil => simp [appendToLast, consHead]
        | cons q qs => simp [appendToLast, consHead]

theorem pySplitEscAux_singleton_nil (d : Char) (rem : Option Nat) (prev : Option Char)
    (x : Char) (xs : List Char) (p : List Char)
    (h : pySplitEscAux d rem prev (x :: xs) = [p]) : p ≠ [] := by
  simp only [pySplitEscAux] at h
  by_cases hcond : x = d ∧ prev ≠ some '\\' ∧ rem ≠ some 0
  · rw [if_pos hcond] at h
    have := pySplitEscAux_ne_nil d (rem.map (fun k => k - 1)) (some x) xs
    cases hS : pySplitEscAux d (rem.map (fun k => k - 1)) (some x) xs with
    | nil => exact absurd hS this
    | cons q qs => rw [hS] at h; simp at h
  · rw [if_neg hcond] at h
    have := pySplitEscAux_ne_nil d rem (some x) xs
    cases hS : pySplitEscAux d rem (some x) xs with
    | nil => exact absurd hS this
    | cons q qs =>
      rw [hS] at h
      simp only [consHead] at h
      rw [List.cons_eq_cons] at h
      rw [h.1.symm]
      simp

theorem getLast?_cons_ne_nil {x : Char} {l : List Char} (h : l ≠ []) :
    (x :: l).getLast? = l.getLast? := by
  cases l with
  | nil => exact absurd rfl h
  | cons y ys => exact List.getLast?_cons_cons

/-- The last part of a list of parts (empty list for no parts). -/
def lastPart : List (List Char) → List Char
  | [] => []
  | [p] => p
  | _ :: ps => lastPart ps

theorem lastPart_cons_cons (p q : List Char) (ps : List (List Char)) :
    lastPart (p :: q :: ps) = lastPart (q :: ps) := rfl

/-- The last part of a split is either empty (the input ended at a split
point) or ends with the input's last character. -/
theorem pySplitEscAux_lastPart (d : Char) (v : List Char) : ∀ rem prev,
    lastPart (pySplitEscAux d rem prev v) = [] ∨
    (lastPart (pySplitEscAux d rem prev v)).getLast? = v.getLast? := by
  induction v with
  | nil => intro rem prev; left; rfl
  | cons c rest ih =>
    intro rem prev
    simp only [pySplitEscAux]
    by_cases h : c = d ∧ prev ≠ some '\\' ∧ rem ≠ some 0
    · rw [if_pos h]
      rcases hS : pySplitEscAux d (rem.map (fun k => k - 1)) (some c) rest with _ | ⟨p, ps⟩
      · exact absurd hS (pySplitEscAux_ne_nil d _ (some c) rest)
      · rw [lastPart_cons_cons]
        cases rest with
        | nil =>
          have hps : p = [] ∧ ps = [] := by
            have h2 : ([[]] : List (List Char)) = p :: ps := by rw [← hS]; rfl
            rw [List.cons_eq_cons] at h2
            exact ⟨h2.1.symm, h2.2.symm⟩
          left
          rw [hps.1, hps.2]
          rfl
        | cons x xs =>
          have ihv := ih (rem.map (fun k => k - 1)) (some c)
          rw [hS] at ihv
          rw [getLast?_cons_ne_nil (by simp : (x :: xs : List Char) ≠ [])]
          exact ihv
    · rw [if_neg h]
      rcases hS : pySplitEscAux d rem (some c) rest with _ | ⟨p, ps⟩
      · exact absurd hS (pySplitEscAux_ne_nil d rem (some c) rest)
      · simp only [consHead]
        cases ps with
        | nil =>
          cases rest with
          | nil =>
            have hp : p = [] := by
              have h2 : ([[]] : List (List Char)) = [p] := by rw [← hS]; rfl
              rw [List.cons_eq_cons] at h2
              exact h2.1.symm
            right
            rw [hp]
            rfl
          | cons x xs =>
            have hp : p ≠ [] := pySplitEscAux_singleton_nil d rem (some c) x xs p hS
            have ihv := ih rem (some c)
            rw [hS] at ihv
            rcases ihv with h1 | h2
            · exact absurd h1 hp
            · right
              show (c :: p).getLast? = (c :: x :: xs).getLast?
              rw [getLast?_cons_ne_nil hp,
                getLast?_cons_ne_nil (by simp : (x :: xs : List Char) ≠ [])]
              exact h2
        | cons q qs =>
          have ihv := ih rem (some c)
          rw [hS] at ihv
          cases rest with
          | nil =>
            have h2 : ([[]] : List (List Char)) = p :: q :: qs := by rw [← hS]; rfl
            rw [List.cons_eq_cons] at h2
            exact absurd h2.2.symm (by simp)
          | cons x xs =>
            rw [lastPart_cons_cons] at ihv ⊢
            rw [getLast?_cons_ne_nil (by simp : (x :: xs : List Char) ≠ [])]
            exact ihv

theorem pySubEscAux_append_trailing (p : List Char) :
    ∀ prev, (p.getLast? = none → prev ≠ some '\\') →
    (∀ c, p.getLast? = some c → c ≠ '\\') →
    pySubEscAux prev (p ++ ['\\']) = pySubEscAux prev p := by
  induction p with
  | nil =>
    intro prev hne _
    have hprev : prev ≠ some '\\' := hne rfl
    simp only [List.nil_append, pySubEscAux]
    have hcond : True ∧ prev ≠ some '\\' := ⟨trivial, hprev⟩
    rw [if_pos hcond]
  | cons c p' ih =>
    intro prev _ hlast
    have hrec : pySubEscAux (some c) (p' ++ ['\\']) = pySubEscAux (some c) p' := by
      apply ih (some c)
      · intro hnil
        have hp' : p' = [] := by simpa using hnil
        have : (c :: p').getLast? = some c := by rw [hp']; rfl
        simp [hlast c this]
      · intro c' hc'
        have hp' : p' ≠ [] := by
          intro hnil
          rw [hnil] at hc'
          simp at hc'
        exact hlast c' (by rw [getLast?_cons_ne_nil hp']; exact hc')
    simp only [List.cons_append, pySubEscAux, List.append_eq]
    by_cases h : c = '\\' ∧ prev ≠ some '\\'
    · rw [if_pos h, if_pos h, hrec]
    · rw [if_neg h, if_neg h, hrec]

theorem mapSub_appendToLast (ps : List (List Char)) (hne : ps ≠ [])
    (hlast : (lastPart ps).getLast? ≠ some '\\') :
    (appendToLast '\\' ps).map (pySubEscAux none) = ps.map (pySubEscAux none) := by
  induction ps with
  | nil => exact absurd rfl hne
  | cons p ps' ih =>
    cases ps' with
    | nil =>
      simp only [appendToLast, List.map_cons, List.map_nil]
      rw [pySubEscAux_append_trailing p none (fun _ => by simp)
        (fun c hc => by
          intro hcc
          rw [hcc] at hc
          exact hlast hc)]
    | cons q qs =>
      rw [show appendToLast '\\' (p :: q :: qs) = p :: appendToLast '\\' (q :: qs) from rfl]
      simp only [List.map_cons]
      rw [List.cons_eq_cons]
      refine ⟨rfl, ?_⟩
      have h2 := ih (by simp) (by rw [lastPart_cons_cons] at hlast; exact hlast)
      simpa using h2

/-- C4: splitting the string "A\,B\,C,1\,2\,3" with delimiter ',' yields
exactly ["A,B,C", "1,2,3"]; and in general `escape_split` produces one part
per stretch between delimiter occurrences not immediately preceded by the
escape character (parts = unescaped occurrences + 1), removing one escape
character before the escaped characters of each part. -/
theorem c4_escape_split_escaping :
    escape_split ("A\\,B\\,C,1\\,2\\,3").toList ',' 0 =
      [("A,B,C").toList, ("1,2,3").toList] ∧
    ∀ (value : List Char) (d : Char),
      (escape_split value d 0).length = countUnescaped d none value + 1 := by
  constructor
  · decide
  · intro value d
    unfold escape_split
    rw [if_pos rfl, List.length_map, pySplitEscAux_length]

/-- C5 counterexample: the single element "a\,b" contains no unescaped
',' (its comma is escaped), so it satisfies the claim's hypothesis, yet
splitting the joined string does not return the original element: the
unescaping pass rewrites it to "a,b". -/
theorem c5_roundtrip_counterexample :
    countUnescaped ',' none ("a\\,b").toList = 0 ∧
    joinWith ',' [("a\\,b").toList] = ("a\\,b").toList ∧
    escape_split (joinWith ',' [("a\\,b").toList]) ',' 0 ≠ [("a\\,b").toList] := by
  decide

/-- C5 (amended): for every nonempty sequence of elements containing
neither the delimiter nor the escape character, splitting the string built
by joining them with the delimiter yields back exactly the original
elements. -/
theorem c5_roundtrip_clean (d : Char) (es : List (List Char)) (hd : d ≠ '\\')
    (hne : es ≠ []) (hclean : ∀ e ∈ es, cleanElem d e) :
    escape_split (joinWith d es) d 0 = es := by
  unfold escape_split
  rw [if_pos rfl]
  exact escape_split_joinWith_aux d hd es hne hclean none (by simp)

/-- C5 witness: the amended round-trip at a concrete input. -/
theorem c5_roundtrip_clean_witness :
    escape_split (joinWith ',' [("ab").toList, ("cd").toList]) ',' 0 =
      [("ab").toList, ("cd").toList] :=
  c5_roundtrip_clean ',' [("ab").toList, ("cd").toList] (by decide) (by decide)
    (by decide)

/-- C6 counterexample: on input "ab\" (trailing unescaped backslash) the
split does not fail, but the trailing escape character is removed by the
unescaping pass rather than passed through: no resulting part ends with a
backslash. -/
theorem c6_trailing_escape_counterexample :
    escape_split ("ab\\").toList ',' 0 = [("ab").toList] ∧
    ∀ p ∈ escape_split ("ab\\").toList ',' 0, p.getLast? ≠ some '\\' := by
  decide

/-- C6 (amended): an input ending in an unescaped escape character never
fails; the trailing escape character is silently consumed by the
unescaping pass, so the result equals splitting the input without it. -/
theorem c6_trailing_escape_dropped (d : Char) (w : List Char) (hd : d ≠ '\\')
    (hw : w.getLast? ≠ some '\\') :
    escape_split (w ++ ['\\']) d 0 = escape_split w d 0 := by
  unfold escape_split
  rw [if_pos rfl]
  rw [pySplitEscAux_append_char d '\\' (fun h => hd h.symm) w none]
  apply mapSub_appendToLast
  · exact pySplitEscAux_ne_nil d none none w
  · rcases pySplitEscAux_lastPart d w none none with h | h
    · rw [h]; simp
    · rw [h]; exact hw

/-- C6 witness: the amended statement at a concrete input. -/
theorem c6_trailing_escape_dropped_witness :
    escape_split (("ab").toList ++ ['\\']) ',' 0 = escape_split ("ab").toList ',' 0 :=
  c6_trailing_escape_dropped ',' ("ab").toList (by decide) (by decide)

/-- The python types caep can coerce values to (TYPE_MAPPING in
src/caep/schema.py, minus "number": floats are not modelled and no
verified claim involves a float field). -/
inductive PyType where
  | str
  | int
  | bool
deriving DecidableEq, Repr

/-- Python `str(v)` for the modelled values. -/
def pyStr : Value → String
  | .vnone => "None"
  | .vbool b => if b then ("True") else ("False")
  | .vint n => toString n
  | .vstr s => s

/-- Python truthiness (used by `bool(v)`). -/
def pyTruthy : Value → Bool
  | .vnone => false
  | .vbool b => b
  | .vint n => n != 0
  | .vstr s => s != ""

/-- Python `str.strip()` on a character list: drop leading and trailing
whitespace. -/
def pyStripChars (cs : List Char) : List Char :=
  ((cs.dropWhile Char.isWhitespace).reverse.dropWhile Char.isWhitespace).reverse

/-- Python `str.strip()`. -/
def pyStrip (s : String) : String := String.mk (pyStripChars s.toList)

/-- Decimal digits to a natural number. -/
def digitsToNat (cs : List Char) : Nat :=
  cs.foldl (fun n c => n * 10 + (c.toNat - 48)) 0

/-- Python `int(s)` on a string: strip whitespace, optional sign, digits;
anything else raises ValueError.  (Underscore separators and non-ASCII
digits are not modelled.) -/
def pyParseInt (s : String) : Except PyErr Value :=
  let t := pyStripChars s.toList
  let signCore : Bool × List Char := match t with
    | '-' :: rest => (true, rest)
    | '+' :: rest => (false, rest)
    | _ => (false, t)
  if signCore.2 ≠ [] ∧ signCore.2.all Char.isDigit = true then
    .ok (.vint (if signCore.1 then -(digitsToNat signCore.2 : Int)
      else (digitsToNat signCore.2 : Int)))
  else .error (.valueError ("invalid literal for int: " ++ s))

/-- Applying a python type constructor to a value, as caep does for
element conversion and argparse `type=` coercion. -/
def applyPyType : PyType → Value → Except PyErr Value
  | .str, v => .ok (.vstr (pyStr v))
  | .int, .vstr s => pyParseInt s
  | .int, .vint n => .ok (.vint n)
  | .int, .vbool b => .ok (.vint (if b then 1 else 0))
  | .int, .vnone => .error (.valueError ("int() argument must not be None"))
  | .bool, v => .ok (.vbool (pyTruthy v))

/-- `ArrayInfo` from src/caep/schema.py. -/
structure ArrayInfo where
  array_type : PyType
  split : Char
  min_size : Nat
deriving DecidableEq, Repr

/-- `DictInfo` from src/caep/schema.py. -/
structure DictInfo where
  dict_type : PyType
  split : Char
  kv_split : Char
  min_size : Nat
deriving DecidableEq, Repr

/-- `escape_split` lifted to `String`. -/
def escapeSplitStr (value : String) (split : Char) (maxsplit : Nat) : List String :=
  (escape_split value.toList split maxsplit).map (fun cs => String.mk cs)

/-- Python dict assignment `d[k] = v`: overwrite in place if the key is
present (keeping its position), else append. -/
def pyDictSet {α : Type} : List (String × α) → String → α → List (String × α)
  | [], k, v => [(k, v)]
  | (k', v') :: rest, k, v =>
    if k' = k then (k, v) :: rest else (k', v') :: pyDictSet rest k v

/-- Python dict lookup returning `none` for a missing key. -/
def pyDictGet {α : Type} (d : List (String × α)) (k : String) : Option α :=
  (d.find? (fun kv => kv.1 == k)).map (fun kv => kv.2)

/-- The per-item loop of `split_dict` (src/caep/schema.py lines 85-95):
split each item on the key/value delimiter with `maxsplit=2`; the tuple
unpacking `key, val = ...` raises unless there are exactly two parts,
which the source turns into a FieldError. -/
def split_dict_items (di : DictInfo) : List (String × Value) → List String →
    Except PyErr (List (String × Value))
  | d, [] => .ok d
  | d, items :: rest =>
    match escapeSplitStr items di.kv_split 2 with
    | [k, v] =>
      match applyPyType di.dict_type (.vstr (pyStrip v)) with
      | .error e => .error e
      | .ok tv => split_dict_items di (pyDictSet d (pyStrip k) tv) rest
    | _ => .error (.fieldError ("Unable to split " ++ items ++ " by " ++
        String.singleton di.kv_split))

/-- The value-splitting phase of `split_dict` (src/caep/schema.py lines
80-95): `None` or blank input gives the empty dict, otherwise the items
loop runs. -/
def split_dict_raw (value : Option String) (di : DictInfo) :
    Except PyErr (List (String × Value)) :=
  match value with
  | none => .ok []
  | some s =>
    if pyStrip s = "" then .ok []
    else split_dict_items di [] (escapeSplitStr s di.split 0)

/-- `split_dict` from src/caep/schema.py (lines 68-102): the splitting
phase followed by the minimum-size check, which runs on every path,
including the blank-input one. -/
def split_dict (value : Option String) (di : DictInfo) (field : String) :
    Except PyErr (List (String × Value)) :=
  match split_dict_raw value di with
  | .error e => .error e
  | .ok d =>
    if d.length < di.min_size then
      .error (.fieldError (field ++ " have to few elements " ++
        toString d.length ++ " < " ++ toString di.min_size))
    else .ok d

/-- The value-splitting phase of `split_list` (src/caep/schema.py lines
114-118). -/
def split_list_raw (value : Option String) (array : ArrayInfo) :
    Except PyErr (List Value) :=
  match value with
  | none => .ok []
  | some s =>
    if pyStrip s = "" then .ok []
    else (escapeSplitStr s array.split 0).mapM
      (fun (v : String) => applyPyType array.array_type (.vstr (pyStrip v)))

/-- `split_list` from src/caep/schema.py (lines 105-123): the splitting
phase followed by the minimum-size check, which runs on every path,
including the blank-input one. -/
def split_list (value : Option String) (array : ArrayInfo) (field : String) :
    Except PyErr (List Value) :=
  match split_list_raw value array with
  | .error e => .error e
  | .ok lst =>
    if lst.length < array.min_size then
      .error (.fieldError (field ++ " have to few elements " ++
        toString lst.length ++ " < " ++ toString array.min_size))
    else .ok lst

theorem split_dict_items_two_parts (di : DictInfo) (l : List String) :
    ∀ (acc r : List (String × Value)), split_dict_items di acc l = .ok r →
    ∀ items ∈ l, (escapeSplitStr items di.kv_split 2).length = 2 := by
  induction l with
  | nil => intro acc r _ items h; exact absurd h (by simp)
  | cons x rest ih =>
    intro acc r hok items hitems
    simp only [split_dict_items] at hok
    split at hok
    · rename_i k v hkv
      split at hok
      · exact absurd hok (by simp)
      · rename_i tv hconv
        rcases List.mem_cons.mp hitems with heq | hmem
        · rw [heq, hkv]; rfl
        · exact ih (pyDictSet acc (pyStrip k) tv) r hok items hmem
    · exact absurd hok (by simp)

/-- C7: to_mapping on "a:1,b:2" with int elements, delimiters ',' and ':'
and min_size 0 yields the mapping a=1, b=2; "a,b" fails with FieldError
because an item has no key/value separator; and in general whenever
`split_dict` succeeds on a non-blank value, every delimiter-split item
splits on the key/value delimiter into exactly two parts (so any item
that does not makes it fail). -/
theorem c7_split_dict_mapping :
    split_dict (some ("a:1,b:2")) ⟨PyType.int, ',', ':', 0⟩ ("dict_arg") =
      .ok [("a", Value.vint 1), ("b", Value.vint 2)] ∧
    split_dict (some ("a,b")) ⟨PyType.str, ',', ':', 0⟩ ("dict_arg") =
      .error (.fieldError ("Unable to split a by :")) ∧
    ∀ (value : String) (di : DictInfo) (f : String) (d : List (String × Value)),
      pyStrip value ≠ "" →
      split_dict (some value) di f = .ok d →
      ∀ items ∈ escapeSplitStr value di.split 0,
        (escapeSplitStr items di.kv_split 2).length = 2 := by
  refine ⟨by rfl, by rfl, ?_⟩
  intro value di f d hne hok items hitem
  simp only [split_dict] at hok
  split at hok
  · exact absurd hok (by simp)
  · rename_i d' hraw
    simp only [split_dict_raw] at hraw
    rw [if_neg hne] at hraw
    exact split_dict_items_two_parts di _ [] d' hraw items hitem

/-- C7 witness: the universally quantified clause of the theorem applied
at a concrete successful parse. -/
theorem c7_split_dict_mapping_witness :
    ∀ items ∈ escapeSplitStr ("a:1,b:2") ',' 0,
      (escapeSplitStr items ':' 2).length = 2 :=
  c7_split_dict_mapping.2.2 ("a:1,b:2") ⟨PyType.int, ',', ':', 0⟩ ("dict_arg")
    [("a", Value.vint 1), ("b", Value.vint 2)] (by decide) (by rfl)

theorem split_list_min_fail (value : Option String) (ai : ArrayInfo) (f : String)
    (hraw : split_list_raw value ai = .ok []) (hmin : 0 < ai.min_size) :
    split_list value ai f = .error (.fieldError (f ++ " have to few elements " ++
      toString (0 : Nat) ++ " < " ++ toString ai.min_size)) := by
  simp only [split_list, hraw, List.length_nil]
  rw [if_pos hmin]

theorem split_dict_min_fail (value : Option String) (di : DictInfo) (g : String)
    (hraw : split_dict_raw value di = .ok []) (hmin : 0 < di.min_size) :
    split_dict value di g = .error (.fieldError (g ++ " have to few elements " ++
      toString (0 : Nat) ++ " < " ++ toString di.min_size)) := by
  simp only [split_dict, hraw, List.length_nil]
  rw [if_pos hmin]

/-- C10: with a positive minimum size, the list and mapping coercions
fail with FieldError on absent (None) and on blank (whitespace-only)
input, instead of returning an empty collection: the minimum-size check
runs on the blank-input branch too. -/
theorem c10_min_size_blank (ai : ArrayInfo) (di : DictInfo) (f g s t : String)
    (hai : 0 < ai.min_size) (hdi : 0 < di.min_size)
    (hs : pyStrip s = "") (ht : pyStrip t = "") :
    (∃ m, split_list none ai f = .error (.fieldError m)) ∧
    (∃ m, split_list (some s) ai f = .error (.fieldError m)) ∧
    (∃ m, split_dict none di g = .error (.fieldError m)) ∧
    (∃ m, split_dict (some t) di g = .error (.fieldError m)) := by
  have hraws : split_list_raw (some s) ai = .ok [] := by
    simp only [split_list_raw]
    rw [if_pos hs]
  have hrawt : split_dict_raw (some t) di = .ok [] := by
    simp only [split_dict_raw]
    rw [if_pos ht]
  exact ⟨⟨_, split_list_min_fail none ai f rfl hai⟩,
    ⟨_, split_list_min_fail (some s) ai f hraws hai⟩,
    ⟨_, split_dict_min_fail none di g rfl hdi⟩,
    ⟨_, split_dict_min_fail (some t) di g hrawt hdi⟩⟩

/-- C10 witness: the theorem at concrete collection configurations with
min_size 2 and 1 and a whitespace-only input. -/
theorem c10_min_size_blank_witness :
    (∃ m, split_list none ⟨PyType.str, ',', 2⟩ ("f") = .error (.fieldError m)) ∧
    (∃ m, split_list (some (" ")) ⟨PyType.str, ',', 2⟩ ("f") = .error (.fieldError m)) ∧
    (∃ m, split_dict none ⟨PyType.str, ',', ':', 1⟩ ("g") = .error (.fieldError m)) ∧
    (∃ m, split_dict (some (" ")) ⟨PyType.str, ',', ':', 1⟩ ("g") = .error (.fieldError m)) :=
  c10_min_size_blank ⟨PyType.str, ',', 2⟩ ⟨PyType.str, ',', ':', 1⟩ ("f") ("g")
    (" ") (" ") (by decide) (by decide) (by decide) (by decide)

/-- An argparse action as built by caep's parser construction: one
long-form command-line option per declared field.  `type'` is the
argparse `type=` callable (`none` for the boolean store actions), `const`
the stored constant of `store_true` / `store_false` actions (`none`
otherwise).  The `nargs` branch of `get_default` (config.py lines
188-194) is not modelled because caep's parser construction never sets
`nargs`; the implicit `help` action is likewise omitted. -/
structure Action where
  dest : String
  optionStrings : List String
  required : Bool
  default : Value
  type' : Option PyType
  const : Option Bool
deriving DecidableEq, Repr

/-- The key transformation of `get_env` (src/caep/config.py lines
147-156): replace "-" with "_" and uppercase (ASCII field names). -/
def env_transform (key : String) : String :=
  String.mk (key.toList.map (fun c => if c = '-' then '_' else c.toUpper))

/-- `get_env`: the source returns a singleton dict when the transformed
key is in `os.environ` and an empty dict otherwise; `get_default` only
tests membership and reads the value, so an `Option` is the same data. -/
def get_env (environ : List (String × String)) (key : String) : Option String :=
  pyDictGet environ (env_transform key)

/-- Python `str.lower()` (ASCII). -/
def pyLower (s : String) : String := String.mk (s.toList.map Char.toLower)

/-- The boolean-string normalization inside `get_default`
(src/caep/config.py lines 182-186): only when `action.const` is `True`
or `False` (i.e. a `store_true`/`store_false` action) and the current
default is a string, map "true"/"yes" to True and "false"/"no" to False
case-insensitively, leaving any other string untouched. -/
def normalize_bool (const : Option Bool) (v : Value) : Value :=
  match const, v with
  | some _, .vstr s =>
    if pyLower s = "true" ∨ pyLower s = "yes" then .vbool true
    else if pyLower s = "false" ∨ pyLower s = "no" then .vbool false
    else .vstr s
  | _, _ => v

/-- `get_default` from src/caep/config.py (lines 159-205): start from the
argparse default, override with the ini-file section value, override with
the environment value (environment outranks file), normalize boolean
strings for store actions, then apply the argparse `type=` conversion
when a type is set and the value is not None. -/
def get_default (action : Action) (sec environ : List (String × String))
    (key : String) : Except PyErr Value :=
  let dflt := action.default
  let dflt := match get_env environ key with
    | some v => Value.vstr v
    | none => match pyDictGet sec key with
      | some v => Value.vstr v
      | none => dflt
  let dflt := normalize_bool action.const dflt
  match action.type' with
  | some t => if dflt ≠ Value.vnone then applyPyType t dflt else .ok dflt
  | none => .ok dflt

/-- The NotSupported message of `all_defaults` (src/caep/config.py lines
220-225), naming the offending option. -/
def requiredMsg (action : Action) : String :=
  "\"required\" argument is not supported (found in option " ++
    String.join action.optionStrings ++
    "). Set to false and test after it has been parsed by handle_args()"

/-- Whether an option string is a long option (Python
`option_string.startswith("--")`). -/
def isLongOption (os : String) : Bool :=
  match os.toList with
  | '-' :: '-' :: _ => true
  | _ => false

/-- Python `option_string[2:]`. -/
def stripDashDash (os : String) : String := String.mk (os.toList.drop 2)

def exceptOk {ε α : Type} : Except ε α → Bool
  | .ok _ => true
  | .error _ => false

/-- The inner loop of `all_defaults` for one action (src/caep/config.py
lines 226-230): for every long option string, resolve the default and
store it under the action's dest. -/
def defaults_for_action (action : Action) (sec environ : List (String × String))
    (defaults : List (String × Value)) : Except PyErr (List (String × Value)) :=
  action.optionStrings.foldlM (fun acc os =>
    if isLongOption os then
      match get_default action sec environ (stripDashDash os) with
      | .error e => .error e
      | .ok v => .ok (pyDictSet acc action.dest v)
    else .ok acc) defaults

/-- `all_defaults` from src/caep/config.py (lines 208-232): walk the
parser's actions in order; a required action raises NotSupported; for the
others resolve defaults per option string. -/
def all_defaults (sec environ : List (String × String)) :
    List Action → List (String × Value) → Except PyErr (List (String × Value))
  | [], defaults => .ok defaults
  | action :: rest, defaults =>
    if action.required then .error (.notSupported (requiredMsg action))
    else
      match defaults_for_action action sec environ defaults with
      | .error e => .error e
      | .ok defaults' => all_defaults sec environ rest defaults'

/-- Resolve a token to the action owning that option string. -/
def findAction (actions : List Action) (tok : String) : Option Action :=
  actions.find? (fun a => a.optionStrings.contains tok)

/-- argparse's conversion of a command-line value string: apply the
action's `type=` callable, or keep the string when no type is set. -/
def cmdConvert (a : Action) (v : String) : Except PyErr Value :=
  match a.type' with
  | some t => applyPyType t (.vstr v)
  | none => .ok (.vstr v)

/-- The argparse parsing pass over the remaining command-line tokens for
a parser with only long optional arguments (what caep builds): a
`store_true`/`store_false` action stores its constant; a typed action
consumes the next token and stores its conversion; an unknown token or a
missing value is an error.  The namespace starts from the resolved
defaults that `handle_args` injected via `set_defaults`. -/
def parse_tokens (actions : List Action) :
    List (String × Value) → List String → Except PyErr (List (String × Value))
  | ns, [] => .ok ns
  | ns, t :: rest =>
    match findAction actions t with
    | none => .error (.valueError ("unrecognized arguments: " ++ t))
    | some a =>
      match a.const with
      | some b => parse_tokens actions (pyDictSet ns a.dest (.vbool b)) rest
      | none =>
        match rest with
        | [] => .error (.valueError ("argument " ++ t ++ ": expected one argument"))
        | v :: rest' =>
          match cmdConvert a v with
          | .error e => .error e
          | .ok tv => parse_tokens actions (pyDictSet ns a.dest tv) rest'

/-- `handle_args` from src/caep/config.py (lines 235-278), from the point
where the ini section mapping is known: resolve all defaults (injected
into the parser via `set_defaults`), then parse the remaining
command-line tokens.  Locating and reading the ini file (and the early
`--config` pass) is the external Source Loader boundary and is not
modelled; its output is the `section` argument. -/
def handle_args (actions : List Action) (sec environ : List (String × String))
    (tokens : List String) : Except PyErr (List (String × Value)) :=
  match all_defaults sec environ actions [] with
  | .error e => .error e
  | .ok defaults => parse_tokens actions defaults tokens

theorem pyDictGet_set_eq {α : Type} (d : List (String × α)) (k : String) (v : α) :
    pyDictGet (pyDictSet d k v) k = some v := by
  induction d with
  | nil => simp [pyDictSet, pyDictGet, List.find?]
  | cons kv rest ih =>
    obtain ⟨k1, v1⟩ := kv
    simp only [pyDictSet]
    by_cases h : k1 = k
    · rw [if_pos h]
      simp [pyDictGet, List.find?]
    · rw [if_neg h]
      simp only [pyDictGet, List.find?] at ih ⊢
      rw [show (k1 == k) = false from by simp [h]]
      exact ih

theorem pyDictGet_set_ne {α : Type} (d : List (String × α)) (k k' : String) (v : α)
    (h : k ≠ k') : pyDictGet (pyDictSet d k v) k' = pyDictGet d k' := by
  induction d with
  | nil =>
    simp only [pyDictSet, pyDictGet, List.find?]
    rw [show (k == k') = false from by simp [h]]
  | cons kv rest ih =>
    obtain ⟨k1, v1⟩ := kv
    simp only [pyDictSet]
    by_cases h1 : k1 = k
    · rw [if_pos h1]
      subst h1
      simp only [pyDictGet, List.find?]
      rw [show (k1 == k') = false from by simp [h]]
    · rw [if_neg h1]
      simp only [pyDictGet, List.find?] at ih ⊢
      by_cases h2 : k1 = k'
      · rw [show (k1 == k') = true from by simp [h2]]
      · rw [show (k1 == k') = false from by simp [h2]]
        exact ih

theorem parse_tokens_append (actions : List Action) :
    ∀ (n : Nat) (pre : List String), pre.length ≤ n →
    ∀ (ns m : List (String × Value)) (rest : List String),
      parse_tokens actions ns pre = .ok m →
      parse_tokens actions ns (pre ++ rest) = parse_tokens actions m rest := by
  intro n
  induction n with
  | zero =>
    intro pre hlen ns m rest hok
    have hnil : pre = [] := List.eq_nil_of_length_eq_zero (Nat.le_zero.mp hlen)
    subst hnil
    simp only [parse_tokens] at hok
    cases hok
    rfl
  | succ n ihn =>
    intro pre hlen ns m rest hok
    cases pre with
    | nil =>
      simp only [parse_tokens] at hok
      cases hok
      rfl
    | cons t pre' =>
      cases hf : findAction actions t with
      | none =>
        simp only [parse_tokens, hf] at hok
        exact Except.noConfusion hok
      | some a =>
        cases hc : a.const with
        | some b =>
          simp only [parse_tokens, hf, hc, List.cons_append] at hok ⊢
          exact ihn pre' (by simp at hlen; omega) _ m rest hok
        | none =>
          cases pre' with
          | nil =>
            simp only [parse_tokens, hf, hc] at hok
            exact Except.noConfusion hok
          | cons v pre'' =>
            cases hcv : cmdConvert a v with
            | error e =>
              simp only [parse_tokens, hf, hc, hcv, List.cons_append] at hok
              exact Except.noConfusion hok
            | ok tv =>
              simp only [parse_tokens, hf, hc, hcv, List.cons_append] at hok ⊢
              exact ihn pre'' (by simp at hlen; omega) _ m rest hok

theorem parse_tokens_append_of_ok (actions : List Action) (pre : List String)
    (ns m : List (String × Value)) (rest : List String)
    (hok : parse_tokens actions ns pre = .ok m) :
    parse_tokens actions ns (pre ++ rest) = parse_tokens actions m rest :=
  parse_tokens_append actions pre.length pre le_rfl ns m rest hok

theorem parse_tokens_preserve (actions : List Action) (a : Action)
    (hdest : ∀ b ∈ actions, b.dest = a.dest → b = a) :
    ∀ (n : Nat) (post : List String), post.length ≤ n →
      (∀ t ∈ post, findAction actions t ≠ some a) →
      ∀ (ns ns' : List (String × Value)), parse_tokens actions ns post = .ok ns' →
      pyDictGet ns' a.dest = pyDictGet ns a.dest := by
  intro n
  induction n with
  | zero =>
    intro post hlen _ ns ns' hok
    have hnil : post = [] := List.eq_nil_of_length_eq_zero (Nat.le_zero.mp hlen)
    subst hnil
    simp only [parse_tokens] at hok
    cases hok
    rfl
  | succ n ihn =>
    intro post hlen hpost ns ns' hok
    cases post with
    | nil =>
      simp only [parse_tokens] at hok
      cases hok
      rfl
    | cons t post' =>
      cases hf : findAction actions t with
      | none =>
        simp only [parse_tokens, hf] at hok
        exact Except.noConfusion hok
      | some b =>
        have hbmem : b ∈ actions := List.mem_of_find?_eq_some hf
        have hbne : b ≠ a := by
          intro hba
          exact hpost t (by simp) (by rw [hf, hba])
        have hbdest : b.dest ≠ a.dest := fun hd => hbne (hdest b hbmem hd)
        cases hc : b.const with
        | some bv =>
          simp only [parse_tokens, hf, hc] at hok
          have hrec := ihn post' (by simp at hlen; omega)
            (fun x hx => hpost x (by simp [hx])) _ ns' hok
          rw [hrec, pyDictGet_set_ne _ _ _ _ hbdest]
        | none =>
          cases post' with
          | nil =>
            simp only [parse_tokens, hf, hc] at hok
            exact Except.noConfusion hok
          | cons v post'' =>
            cases hcv : cmdConvert b v with
            | error e =>
              simp only [parse_tokens, hf, hc, hcv] at hok
              exact Except.noConfusion hok
            | ok tv =>
              simp only [parse_tokens, hf, hc, hcv] at hok
              have hrec := ihn post'' (by simp at hlen; omega)
                (fun x hx => hpost x (by simp [hx])) _ ns' hok
              rw [hrec, pyDictGet_set_ne _ _ _ _ hbdest]

/-- C1: if a command-line flag for a declared field is present in the
parsed tokens together with a value, the field's final resolved value is
exactly that command-line value (through the field's declared type
conversion), regardless of the ini-file section and the environment:
both are universally quantified and absent from the conclusion. -/
theorem c1_cmdline_value_wins (actions : List Action)
    (sec env : List (String × String)) (pre post : List String) (f v : String)
    (a : Action) (ns' : List (String × Value))
    (hdest : ∀ b ∈ actions, b.dest = a.dest → b = a)
    (hfind : findAction actions f = some a)
    (htyped : a.const = none)
    (hpost : ∀ t ∈ post, findAction actions t ≠ some a)
    (hpre : ∀ ns, exceptOk (parse_tokens actions ns pre) = true)
    (hrun : handle_args actions sec env (pre ++ f :: v :: post) = .ok ns') :
    ∃ w, cmdConvert a v = .ok w ∧ pyDictGet ns' a.dest = some w := by
  simp only [handle_args] at hrun
  cases hd : all_defaults sec env actions [] with
  | error e =>
    simp only [hd] at hrun
    exact Except.noConfusion hrun
  | ok d0 =>
    simp only [hd] at hrun
    have hp := hpre d0
    cases hm : parse_tokens actions d0 pre with
    | error e =>
      rw [hm] at hp
      exact absurd hp (by simp [exceptOk])
    | ok m =>
      rw [parse_tokens_append_of_ok actions pre d0 m (f :: v :: post) hm] at hrun
      simp only [parse_tokens, hfind, htyped] at hrun
      cases hcv : cmdConvert a v with
      | error e =>
        simp only [hcv] at hrun
        exact Except.noConfusion hrun
      | ok w =>
        simp only [hcv] at hrun
        refine ⟨w, rfl, ?_⟩
        have hpres := parse_tokens_preserve actions a hdest post.length post
          le_rfl hpost _ ns' hrun
        rw [hpres, pyDictGet_set_eq]

/-- A concrete int-typed action (flag --num) used by witnesses. -/
def sampleIntAction : Action :=
  ⟨"num", ["--num"], false, Value.vnone, some PyType.int, none⟩

/-- C1 witness: with section num=7 and environment NUM=9, the command
line --num 3 still resolves num to int 3. -/
theorem c1_cmdline_value_wins_witness :
    ∃ w, cmdConvert sampleIntAction ("3") = .ok w ∧
      pyDictGet [("num", Value.vint 3)] ("num") = some w :=
  c1_cmdline_value_wins [sampleIntAction] [("num", "7")] [("NUM", "9")]
    [] [] ("--num") ("3") sampleIntAction [("num", Value.vint 3)]
    (by intro b hb _; simpa using hb)
    (by rfl) (by rfl)
    (by intro t ht; exact absurd ht (by simp))
    (fun ns => rfl)
    (by rfl)

/-- C2: `get_default` resolves with strict precedence environment over
file section over declared default: when the environment has the key the
result is as if the environment value were the only source; otherwise a
present section value plays that role; with neither, only the declared
default feeds the coercion pipeline. -/
theorem c2_default_precedence (a : Action) (sec env : List (String × String))
    (key : String) :
    (∀ v, get_env env key = some v →
      get_default a sec env key = get_default a [(key, v)] [] key) ∧
    (get_env env key = none → ∀ v, pyDictGet sec key = some v →
      get_default a sec env key = get_default a [(key, v)] [] key) ∧
    (get_env env key = none → pyDictGet sec key = none →
      get_default a sec env key = get_default a [] [] key) := by
  have henv0 : get_env ([] : List (String × String)) key = none := rfl
  have hsec0 : pyDictGet ([] : List (String × String)) key = none := rfl
  have hsec1 : ∀ v : String, pyDictGet [(key, v)] key = some v := by
    intro v
    simp [pyDictGet, List.find?]
  refine ⟨?_, ?_, ?_⟩
  · intro v hv
    simp only [get_default, hv, henv0, hsec1]
  · intro he v hs
    simp only [get_default, he, hs, henv0, hsec1]
  · intro he hs
    simp only [get_default, he, hs, henv0, hsec0]

/-- C2 witness: with both an environment value (NUM=9) and a section
value (num=7) present, resolution behaves as if the environment value
were the only source. -/
theorem c2_default_precedence_witness :
    get_default sampleIntAction [("num", "7")] [("NUM", "9")] ("num") =
      get_default sampleIntAction [("num", "9")] [] ("num") :=
  (c2_default_precedence sampleIntAction [("num", "7")] [("NUM", "9")] ("num")).1
    ("9") (by rfl)

/-- A concrete store_true boolean action (flag --enabled, default False)
used in the C8 theorem. -/
def storeTrueEnabled : Action :=
  ⟨"enabled", ["--enabled"], false, Value.vbool false, none, some true⟩

/-- C8: during default resolution of a boolean (store_true/store_false)
action, a string value "true"/"yes" (case-insensitively) normalizes to
True, "false"/"no" to False, any other string stays a string; values that
are not strings, and all values of non-boolean actions (const = none),
are left unchanged.  The last conjuncts show the normalization inside
`get_default` on a boolean action. -/
theorem c8_bool_string_normalization :
    (∀ (b : Bool) (s : String), normalize_bool (some b) (Value.vstr s) =
      (if pyLower s = "true" ∨ pyLower s = "yes" then Value.vbool true
       else if pyLower s = "false" ∨ pyLower s = "no" then Value.vbool false
       else Value.vstr s)) ∧
    (∀ v, normalize_bool none v = v) ∧
    (∀ (b x : Bool), normalize_bool (some b) (Value.vbool x) = Value.vbool x) ∧
    (∀ (b : Bool) (n : Int), normalize_bool (some b) (Value.vint n) = Value.vint n) ∧
    (∀ b : Bool, normalize_bool (some b) Value.vnone = Value.vnone) ∧
    get_default storeTrueEnabled [] [("ENABLED", "yes")] ("enabled") =
      .ok (Value.vbool true) ∧
    get_default storeTrueEnabled [("enabled", "FALSE")] [] ("enabled") =
      .ok (Value.vbool false) ∧
    get_default storeTrueEnabled [("enabled", "maybe")] [] ("enabled") =
      .ok (Value.vstr ("maybe")) :=
  ⟨fun _ _ => rfl, fun v => by cases v <;> rfl, fun _ _ => rfl, fun _ _ => rfl,
    fun _ => rfl, rfl, rfl, rfl⟩

theorem all_defaults_required (sec env : List (String × String)) (req : Action)
    (hreq : req.required = true) (post : List Action) :
    ∀ (pre : List Action), (∀ b ∈ pre, b.required = false ∧
      ∀ acc, exceptOk (defaults_for_action b sec env acc) = true) →
    ∀ acc, all_defaults sec env (pre ++ req :: post) acc =
      .error (.notSupported (requiredMsg req)) := by
  intro pre
  induction pre with
  | nil =>
    intro _ acc
    simp [all_defaults, hreq]
  | cons b pre' ih =>
    intro hpre acc
    have hb := hpre b (by simp)
    simp only [List.cons_append, all_defaults, hb.1]
    cases hdf : defaults_for_action b sec env acc with
    | error e =>
      have hcontra := hb.2 acc
      rw [hdf] at hcontra
      exact absurd hcontra (by simp [exceptOk])
    | ok acc' =>
      simp only [hdf]
      exact ih (fun x hx => hpre x (by simp [hx])) acc'

/-- C9: a parser surface containing an option marked required makes
default resolution fail with NotSupported naming the offending option
(provided the preceding actions resolve their defaults), and
`handle_args` returns that very error for every token list: the failure
happens before any command-line parsing. -/
theorem c9_required_not_supported (sec env : List (String × String))
    (pre post : List Action) (req : Action) (hreq : req.required = true)
    (hpre : ∀ b ∈ pre, b.required = false ∧
      ∀ acc, exceptOk (defaults_for_action b sec env acc) = true) :
    all_defaults sec env (pre ++ req :: post) [] =
      .error (.notSupported (requiredMsg req)) ∧
    ∀ tokens, handle_args (pre ++ req :: post) sec env tokens =
      .error (.notSupported (requiredMsg req)) := by
  have h := all_defaults_required sec env req hreq post pre hpre []
  refine ⟨h, fun tokens => ?_⟩
  simp only [handle_args, h]

/-- A concrete required option used in the C9 witness. -/
def requiredStrAction : Action :=
  ⟨"must", ["--must"], true, Value.vnone, some PyType.str, none⟩

/-- C9 witness: a surface consisting of one required option fails with
NotSupported for every token list. -/
theorem c9_required_not_supported_witness :
    all_defaults [] [] [requiredStrAction] [] =
      .error (.notSupported (requiredMsg requiredStrAction)) ∧
    ∀ tokens, handle_args [requiredStrAction] [] [] tokens =
      .error (.notSupported (requiredMsg requiredStrAction)) :=
  c9_required_not_supported [] [] [] [] requiredStrAction rfl
    (by intro b hb; exact absurd hb (by simp))

/-- One pydantic schema field descriptor as consumed by the parser
construction (the dict values of `model.schema().get("properties")`):
`type'` is schema["type"] (absent for recursive models), `default` the
raw declared default (`vnone` both for an absent default and an explicit
None, as in Python), `itemsType` is schema["items"]["type"],
`addPropsType` is schema["additionalProperties"]["type"], and the last
three are the optional "split", "kv_split" and "min_size" entries. -/
structure FieldSchema where
  type' : Option String
  default : Value
  itemsType : Option String
  addPropsType : Option String
  splitChar : Option Char
  kvSplitChar : Option Char
  minSize : Option Nat
deriving DecidableEq, Repr

/-- TYPE_MAPPING from src/caep/schema.py (lines 18-23), minus "number":
float fields are not modelled (no verified claim involves one). -/
def TYPE_MAPPING (s : String) : Option PyType :=
  if s = "string" then some PyType.str
  else if s = "integer" then some PyType.int
  else if s = "boolean" then some PyType.bool
  else none

/-- The long option name of a field: "--" ++ field with underscores
rendered as hyphens (schema.py line 300). -/
def optionName (field : String) : String :=
  "--" ++ String.mk (field.toList.map (fun c => if c = '_' then '-' else c))

/-- The scalar `add_argument` step of the parser construction (schema.py
lines 281-304).  For a boolean field the source tests
`default in (False, None)` — Python `in` uses `==`, and `0 == False`, so
an integer-zero default also selects the store_true branch (a float zero
would too, but floats are not modelled) — and then `default is True`
(identity, so only the boolean True) for store_false; anything else is a
FieldError.  Non-boolean fields get a typed argument. -/
def scalar_action (field : String) (schema : FieldSchema) (ftype : PyType) :
    Except PyErr Action :=
  if ftype = PyType.bool then
    if schema.default = Value.vnone ∨ schema.default = Value.vbool false ∨
        schema.default = Value.vint 0 then
      .ok ⟨field, [optionName field], false,
        (if schema.default = Value.vnone then Value.vbool false else schema.default),
        none, some true⟩
    else if schema.default = Value.vbool true then
      .ok ⟨field, [optionName field], false, Value.vbool true, none, some false⟩
    else
      .error (.fieldError ("bools only support defaults of False/None/True " ++ field))
  else
    .ok ⟨field, [optionName field], false, schema.default, some ftype, none⟩

/-- The per-field classification of `build_parser` (src/caep/schema.py
lines 227-304): arrays and objects collect ArrayInfo/DictInfo and parse
as str; a missing "type" or an unmapped element type is an error. -/
def build_field (field : String) (schema : FieldSchema) :
    Except PyErr (Action × Option ArrayInfo × Option DictInfo) :=
  match schema.type' with
  | none => .error (.fieldError
      ("No type specified, recursive models are not supported: " ++ field))
  | some ty =>
    if ty = "array" then
      match schema.itemsType with
      | none => .error (.keyError ("items"))
      | some it =>
        match TYPE_MAPPING it with
        | none => .error (.fieldError
            ("Unsupported pydantic type for array field " ++ field))
        | some atype =>
          match scalar_action field schema PyType.str with
          | .error e => .error e
          | .ok a => .ok (a,
              some ⟨atype, schema.splitChar.getD ',', schema.minSize.getD 0⟩, none)
    else if ty = "object" then
      match schema.addPropsType with
      | none => .error (.keyError ("additionalProperties"))
      | some dt =>
        match TYPE_MAPPING dt with
        | none => .error (.fieldError
            ("Unsupported pydantic type for dict field " ++ field))
        | some dtype =>
          match scalar_action field schema PyType.str with
          | .error e => .error e
          | .ok a => .ok (a, none,
              some ⟨dtype, schema.splitChar.getD ',', schema.kvSplitChar.getD ':',
                schema.minSize.getD 0⟩)
    else
      match TYPE_MAPPING ty with
      | none => .error (.fieldError
          ("Unsupported pydantic type for field " ++ field))
      | some ft =>
        match scalar_action field schema ft with
        | .error e => .error e
        | .ok a => .ok (a, none, none)

/-- The field loop of `build_parser`, accumulating actions and the
array/dict maps in declaration order. -/
def build_surface_loop :
    List (String × FieldSchema) →
    (List Action × List (String × ArrayInfo) × List (String × DictInfo)) →
    Except PyErr (List Action × List (String × ArrayInfo) × List (String × DictInfo))
  | [], acc => .ok acc
  | fs :: rest, acc =>
    match build_field fs.1 fs.2 with
    | .error e => .error e
    | .ok (a, someAi, someDi) =>
      build_surface_loop rest
        (acc.1 ++ [a],
         (match someAi with | some ai => acc.2.1 ++ [(fs.1, ai)] | none => acc.2.1),
         (match someDi with | some di => acc.2.2 ++ [(fs.1, di)] | none => acc.2.2))

/-- `build_parser` from src/caep/schema.py (lines 157-306), as the list
of actions it registers plus the array and dict field maps. -/
def build_surface (fields : List (String × FieldSchema)) :
    Except PyErr (List Action × List (String × ArrayInfo) × List (String × DictInfo)) :=
  build_surface_loop fields ([], [], [])

/-- A boolean scalar field schema with the given declared default. -/
def boolFieldSchema (d : Value) : FieldSchema :=
  ⟨some ("boolean"), d, none, none, none, none, none⟩

theorem scalar_action_bool_error (name : String) (schema : FieldSchema)
    (h1 : ¬(schema.default = Value.vnone ∨ schema.default = Value.vbool false ∨
      schema.default = Value.vint 0))
    (h2 : schema.default ≠ Value.vbool true) :
    scalar_action name schema PyType.bool =
      .error (.fieldError ("bools only support defaults of False/None/True " ++ name)) := by
  simp only [scalar_action]
  rw [if_pos trivial, if_neg h1, if_neg h2]

theorem build_field_bool (name : String) (d : Value) :
    build_field name (boolFieldSchema d) =
      match scalar_action name (boolFieldSchema d) PyType.bool with
      | .error e => .error e
      | .ok a => .ok (a, none, none) := by
  simp only [build_field, boolFieldSchema]
  rw [if_neg (by decide : ¬(("boolean" : String) = "array")),
    if_neg (by decide : ¬(("boolean" : String) = "object")),
    show TYPE_MAPPING ("boolean") = some PyType.bool from rfl]

/-- C3 counterexample: a boolean field declaring the integer 0 as its
default — a value other than true, false or absent — does not make the
parser build fail with FieldError: Python's `default in (False, None)`
membership test uses ==, and 0 == False, so the field silently gets a
store_true flag whose default stays the integer 0. -/
theorem c3_counterexample :
    build_surface [(("flag1"), boolFieldSchema (Value.vint 0))] =
      .ok ([⟨("flag1"), [("--flag1")], false, Value.vint 0, none, some true⟩],
        [], []) := by
  rfl

/-- C3 (amended): for a boolean scalar field, a declared default that is
absent (None) or equal to Python's False under == (the boolean false, or
an integer zero) yields a flag that stores true, an absent default being
replaced by false; exactly the boolean true yields a flag that stores
false; every other declared default fails the build with FieldError. -/
theorem c3_bool_default_polarity (name : String) (d : Value) :
    (d = Value.vnone ∨ d = Value.vbool false ∨ d = Value.vint 0 →
      build_surface [(name, boolFieldSchema d)] =
        .ok ([⟨name, [optionName name], false,
          (if d = Value.vnone then Value.vbool false else d), none, some true⟩],
          [], [])) ∧
    (d = Value.vbool true →
      build_surface [(name, boolFieldSchema d)] =
        .ok ([⟨name, [optionName name], false, Value.vbool true, none, some false⟩],
          [], [])) ∧
    (¬(d = Value.vnone ∨ d = Value.vbool false ∨ d = Value.vint 0) →
      d ≠ Value.vbool true →
      build_surface [(name, boolFieldSchema d)] =
        .error (.fieldError ("bools only support defaults of False/None/True " ++
          name))) := by
  refine ⟨?_, ?_, ?_⟩
  · intro h
    have hsa : scalar_action name (boolFieldSchema d) PyType.bool =
        .ok ⟨name, [optionName name], false,
          (if d = Value.vnone then Value.vbool false else d), none, some true⟩ := by
      simp only [scalar_action, boolFieldSchema]
      rw [if_pos trivial, if_pos h]
    simp only [build_surface, build_surface_loop, build_field_bool, hsa,
      List.nil_append]
  · intro h
    subst h
    rfl
  · intro h1 h2
    have hsa := scalar_action_bool_error name (boolFieldSchema d)
      (by simpa [boolFieldSchema] using h1) (by simpa [boolFieldSchema] using h2)
    simp only [build_surface, build_surface_loop, build_field_bool, hsa,
      List.nil_append]

/-- C3 witness: the amended theorem at three concrete defaults — absent
(store_true with default false), true (store_false), and the string "x"
(FieldError). -/
theorem c3_bool_default_polarity_witness :
    build_surface [(("enabled"), boolFieldSchema Value.vnone)] =
      .ok ([⟨("enabled"), [("--enabled")], false, Value.vbool false, none, some true⟩],
        [], []) ∧
    build_surface [(("flag1"), boolFieldSchema (Value.vbool true))] =
      .ok ([⟨("flag1"), [("--flag1")], false, Value.vbool true, none, some false⟩],
        [], []) ∧
    build_surface [(("bad"), boolFieldSchema (Value.vstr ("x")))] =
      .error (.fieldError ("bools only support defaults of False/None/True bad")) :=
  ⟨(c3_bool_default_polarity ("enabled") Value.vnone).1 (Or.inl rfl),
   (c3_bool_default_polarity ("flag1") (Value.vbool true)).2.1 rfl,
   (c3_bool_default_polarity ("bad") (Value.vstr ("x"))).2.2
     (by intro h; rcases h with h | h | h <;> exact Value.noConfusion h)
     (fun h => Value.noConfusion h)⟩

end Caep
